import Mathlib

/-!
Shallow embedding of the `SnugInt<Type>` safe-integer wrapper
(src/SnugInt.h, src/SnugInt.tpp): a value type holding the current `value`
together with the `min`/`max` bounds of the underlying fixed-width integer type,
with precondition-checked construction and arithmetic.

Modelling conventions:
* A machine value of the underlying `Type` is an `Int`; the limits
  `std::numeric_limits<Type>::min()` / `::max()` are parameters `tmin` / `tmax`
  (for a signed two-complement type `tmin = -(tmax + 1)`, for an unsigned
  type `tmin = 0`).
* Intermediate C++ arithmetic on narrow signed types is promoted to `int` and
  hence exact; it is modelled by exact `Int` arithmetic.  C++ `/` truncates
  toward zero and is modelled by `Int.tdiv`.  C++ unsigned arithmetic wraps
  modulo 2^w and is modelled by `Int.emod` with modulus `umax + 1`.
* A thrown exception is `SnugResult.exc e`, with `SnugExc` naming the eight
  global exception objects declared in src/SnugInt.h.  Undefined behaviour
  that crashes the process (hardware division by zero) is `SnugResult.crash`.
-/

/-- The private state of `SnugInt<Type>`: field declaration order follows
src/SnugInt.h lines 155-157 (`value`, `max`, `min`). -/
structure SnugInt where
  value : Int
  max : Int
  min : Int
deriving DecidableEq

/-- The eight exception objects of src/SnugInt.h (lines 177-316):
`snugint_add_overflow`, `snugint_add_underflow`, `snugint_sub_overflow`,
`snugint_sub_underflow`, `snugint_mult_overflow`, `snugint_mult_underflow`,
`snugint_size_mismatch`, `snugint_type_mismatch`.  Note that the source
declares no division-by-zero exception. -/
inductive SnugExc where
  | AdditionOverflow
  | AdditionUnderflow
  | SubtractionOverflow
  | SubtractionUnderflow
  | MultiplicationOverflow
  | MultiplicationUnderflow
  | SizeMismatch
  | TypeMismatch
deriving DecidableEq

/-- Outcome of an operation that returns a fresh `SnugInt`: a normal return,
a thrown exception, or a process crash (C++ undefined behaviour). -/
inductive SnugResult where
  | ok : SnugInt → SnugResult
  | exc : SnugExc → SnugResult
  | crash : SnugResult
deriving DecidableEq

/-- Result of a mutating prefix increment/decrement: the state of the object after
the call and the exception thrown, if any (a throw happens before any
mutation, so on a throw `state` is the original object). -/
structure StepResult where
  state : SnugInt
  thrown : Option SnugExc
deriving DecidableEq

/-- Result of a mutating postfix increment/decrement: the state of the object after
the call, the returned pre-mutation snapshot (when no exception), and the
exception thrown, if any. -/
structure PostResult where
  state : SnugInt
  ret : Option SnugInt
  thrown : Option SnugExc
deriving DecidableEq

namespace SnugInt

/-- Converting constructor `SnugInt<Type>::SnugInt(const T& item)`
(src/SnugInt.tpp lines 72-90): derives `min`/`max` from the underlying type,
throws `snugint_type_mismatch` if `min == max`, throws `snugint_size_mismatch`
if `item > max || item < min`, otherwise stores `value = item`. -/
def ofItem (tmin tmax : Int) (item : Int) : SnugResult :=
  if tmin = tmax then SnugResult.exc SnugExc.TypeMismatch
  else if item > tmax ∨ item < tmin then SnugResult.exc SnugExc.SizeMismatch
  else SnugResult.ok ⟨item, tmax, tmin⟩

/-- Default constructor (src/SnugInt.tpp lines 19-30): throws
`snugint_type_mismatch` if `min == max`, otherwise sets `value = 0`. -/
def defaultCtor (tmin tmax : Int) : SnugResult :=
  if tmin = tmax then SnugResult.exc SnugExc.TypeMismatch
  else SnugResult.ok ⟨0, tmax, tmin⟩

/-- Copy constructor (src/SnugInt.tpp lines 45-56): copies `max`/`min`,
re-validates the `min == max` guard, then copies `value`. -/
def copyCtor (other : SnugInt) : SnugResult :=
  if other.min = other.max then SnugResult.exc SnugExc.TypeMismatch
  else SnugResult.ok ⟨other.value, other.max, other.min⟩

/-- `operator=(const SnugInt&)` (src/SnugInt.tpp lines 106-114):
unconditional copy of `value`, `max`, `min` from the source instance. -/
def assignSnug (s other : SnugInt) : SnugInt :=
  ⟨other.value, other.max, other.min⟩

/-- `operator=(const Type&)` (src/SnugInt.tpp lines 130-134): unchecked copy
of a raw value of the underlying type into `value`. -/
def assignRaw (s : SnugInt) (other : Int) : SnugInt :=
  ⟨other, s.max, s.min⟩

/-- `SnugInt<Type>::SafeAdd` (src/SnugInt.tpp lines 876-896), signed
instantiation.  Checks the two strict-sign cases before adding, then builds
the result through the converting constructor. -/
def SafeAdd (tmin tmax : Int) (left right : SnugInt) : SnugResult :=
  if left.value > 0 ∧ right.value > 0 then
    if left.max - left.value < right.value then SnugResult.exc SnugExc.AdditionOverflow
    else ofItem tmin tmax (left.value + right.value)
  else if left.value < 0 ∧ right.value < 0 then
    if left.min - left.value > right.value then SnugResult.exc SnugExc.AdditionUnderflow
    else ofItem tmin tmax (left.value + right.value)
  else ofItem tmin tmax (left.value + right.value)

/-- `SnugInt<Type>::SafeSub` (src/SnugInt.tpp lines 914-934), signed
instantiation.  Checks the two mixed-sign cases (using `abs`) before
subtracting, then builds the result through the converting constructor. -/
def SafeSub (tmin tmax : Int) (left right : SnugInt) : SnugResult :=
  if left.value > 0 ∧ right.value < 0 then
    if left.max - left.value < |right.value| then SnugResult.exc SnugExc.SubtractionOverflow
    else ofItem tmin tmax (left.value - right.value)
  else if left.value < 0 ∧ right.value > 0 then
    if |left.min - left.value| < right.value then SnugResult.exc SnugExc.SubtractionUnderflow
    else ofItem tmin tmax (left.value - right.value)
  else ofItem tmin tmax (left.value - right.value)

/-- `SnugInt<Type>::SafeMult` (src/SnugInt.tpp lines 953-991), signed
instantiation.  Four sign-quadrant checks, each comparing one operand against
a bound divided (C++ truncating division, `Int.tdiv`) by the other. -/
def SafeMult (tmin tmax : Int) (left right : SnugInt) : SnugResult :=
  if left.value > 0 then
    if right.value > 0 then
      if left.value > Int.tdiv left.max right.value then
        SnugResult.exc SnugExc.MultiplicationOverflow
      else ofItem tmin tmax (left.value * right.value)
    else
      if right.value < Int.tdiv left.min left.value then
        SnugResult.exc SnugExc.MultiplicationUnderflow
      else ofItem tmin tmax (left.value * right.value)
  else
    if right.value > 0 then
      if left.value < Int.tdiv left.min right.value then
        SnugResult.exc SnugExc.MultiplicationUnderflow
      else ofItem tmin tmax (left.value * right.value)
    else
      if left.value ≠ 0 ∧ right.value < Int.tdiv left.max left.value then
        SnugResult.exc SnugExc.MultiplicationOverflow
      else ofItem tmin tmax (left.value * right.value)

/-- `SnugInt<Type>::SafeDiv` (src/SnugInt.tpp lines 1006-1011): no
precondition check of any kind; computes `left.value / right.value` directly
and hands it to the converting constructor.  When `right.value == 0` the C++
integer division is undefined behaviour that crashes the process, modelled
as `SnugResult.crash`. -/
def SafeDiv (tmin tmax : Int) (left right : SnugInt) : SnugResult :=
  if right.value = 0 then SnugResult.crash
  else ofItem tmin tmax (Int.tdiv left.value right.value)

/-- `SnugInt<Type>::SafeSub` instantiated at an unsigned underlying type with
maximum `umax` (minimum 0): the source text is unchanged, but every value of
the type is nonnegative, so both sign guards are always false for in-range
operands, and the raw machine arithmetic wraps modulo `umax + 1`. -/
def USafeSub (umax : Int) (left right : SnugInt) : SnugResult :=
  if left.value > 0 ∧ right.value < 0 then
    if Int.emod (left.max - left.value) (umax + 1) < |right.value| then
      SnugResult.exc SnugExc.SubtractionOverflow
    else ofItem 0 umax (Int.emod (left.value - right.value) (umax + 1))
  else if left.value < 0 ∧ right.value > 0 then
    if |Int.emod (left.min - left.value) (umax + 1)| < right.value then
      SnugResult.exc SnugExc.SubtractionUnderflow
    else ofItem 0 umax (Int.emod (left.value - right.value) (umax + 1))
  else ofItem 0 umax (Int.emod (left.value - right.value) (umax + 1))

/-- Prefix `operator++` (src/SnugInt.tpp lines 427-436): throws
`snugint_add_overflow` if `value == max`, before any mutation; otherwise
increments `value` by one. -/
def incPre (s : SnugInt) : StepResult :=
  if s.value = s.max then ⟨s, some SnugExc.AdditionOverflow⟩
  else ⟨⟨s.value + 1, s.max, s.min⟩, none⟩

/-- Postfix `operator++(int)` (src/SnugInt.tpp lines 450-460): throws
`snugint_add_overflow` if `value == max`; otherwise copies the pre-mutation
state (copy constructor, with its `min == max` guard), increments through the
prefix form, and returns the snapshot. -/
def incPost (s : SnugInt) : PostResult :=
  if s.value = s.max then ⟨s, none, some SnugExc.AdditionOverflow⟩
  else if s.min = s.max then ⟨s, none, some SnugExc.TypeMismatch⟩
  else ⟨⟨s.value + 1, s.max, s.min⟩, some ⟨s.value, s.max, s.min⟩, none⟩

/-- Prefix `operator--` (src/SnugInt.tpp lines 474-484): throws
`snugint_sub_underflow` if `value == min`, before any mutation; otherwise
decrements `value` by one. -/
def decPre (s : SnugInt) : StepResult :=
  if s.value = s.min then ⟨s, some SnugExc.SubtractionUnderflow⟩
  else ⟨⟨s.value - 1, s.max, s.min⟩, none⟩

/-- Postfix `operator--(int)` (src/SnugInt.tpp lines 499-509): throws
`snugint_sub_underflow` if `value == min`; otherwise copies the pre-mutation
state (copy constructor, with its `min == max` guard), decrements through the
prefix form, and returns the snapshot. -/
def decPost (s : SnugInt) : PostResult :=
  if s.value = s.min then ⟨s, none, some SnugExc.SubtractionUnderflow⟩
  else if s.min = s.max then ⟨s, none, some SnugExc.TypeMismatch⟩
  else ⟨⟨s.value - 1, s.max, s.min⟩, some ⟨s.value, s.max, s.min⟩, none⟩

/-- State invariant of a live instance over the underlying type with limits
`tmin`/`tmax`: the stored bounds are the limits of the type, the stored value lies
within them, and the bounds are distinguishable (`min < max`). -/
def WF (tmin tmax : Int) (s : SnugInt) : Prop :=
  s.min = tmin ∧ s.max = tmax ∧ tmin ≤ s.value ∧ s.value ≤ tmax ∧ tmin < tmax

instance (tmin tmax : Int) (s : SnugInt) : Decidable (WF tmin tmax s) := by
  unfold WF
  infer_instance

end SnugInt

/-! Arithmetic facts about C++ truncating division, used to relate the
divided-bound guards of `SafeMult` to the exact product. -/

/-- For a positive divisor and nonnegative dividend, the truncated quotient is
below `a` exactly when the dividend is below `a * b`. -/
theorem tdiv_lt_iff_of_pos {M b a : Int} (hb : 0 < b) (hM : 0 ≤ M) :
    Int.tdiv M b < a ↔ M < a * b := by
  rw [Int.tdiv_eq_ediv hM (le_of_lt hb)]
  exact Int.ediv_lt_iff_lt_mul hb

/-- For a positive divisor and nonpositive dividend, `r` is below the
truncated quotient exactly when `r * b` is below the dividend. -/
theorem lt_tdiv_iff_of_nonpos {m b r : Int} (hb : 0 < b) (hm : m ≤ 0) :
    r < Int.tdiv m b ↔ r * b < m := by
  have h1 : Int.tdiv m b = -(Int.tdiv (-m) b) := by
    rw [← Int.neg_tdiv, Int.neg_neg]
  rw [h1, lt_neg, Int.tdiv_eq_ediv (by omega) (le_of_lt hb),
    Int.ediv_lt_iff_lt_mul hb, neg_mul, neg_lt_neg_iff]

/-- For a negative divisor and nonnegative dividend, `r` is below the
truncated quotient exactly when the dividend is below `a * r`. -/
theorem lt_tdiv_iff_of_neg {M a r : Int} (ha : a < 0) (hM : 0 ≤ M) :
    r < Int.tdiv M a ↔ M < a * r := by
  have h1 : Int.tdiv M a = -(Int.tdiv M (-a)) := by
    rw [← Int.tdiv_neg, Int.neg_neg]
  rw [h1, lt_neg, Int.tdiv_eq_ediv hM (by omega), Int.ediv_lt_iff_lt_mul (by omega),
    neg_mul_neg, mul_comm r a]

/-- A successful converting construction yields a well-formed instance. -/
theorem ofItem_ok_WF {tmin tmax item : Int} {s : SnugInt} (hlt : tmin < tmax)
    (h : SnugInt.ofItem tmin tmax item = SnugResult.ok s) : SnugInt.WF tmin tmax s := by
  unfold SnugInt.ofItem at h
  by_cases h1 : tmin = tmax
  · rw [if_pos h1] at h
    cases h
  · rw [if_neg h1] at h
    by_cases h2 : item > tmax ∨ item < tmin
    · rw [if_pos h2] at h
      cases h
    · rw [if_neg h2] at h
      injection h with h3
      subst h3
      have hb1 : tmin ≤ item := by omega
      have hb2 : item ≤ tmax := by omega
      exact ⟨rfl, rfl, hb1, hb2, hlt⟩

/-- Over a two-complement signed range, the truncated quotient of in-range
operands stays in range except at dividend `min` with divisor `-1`. -/
theorem tdiv_bounds {tmax a b : Int} (hpos : 0 < tmax)
    (ha1 : -(tmax + 1) ≤ a) (ha2 : a ≤ tmax)
    (hb0 : b ≠ 0) (hexc : ¬(a = -(tmax + 1) ∧ b = -1)) :
    -(tmax + 1) ≤ Int.tdiv a b ∧ Int.tdiv a b ≤ tmax := by
  rcases eq_or_ne b 1 with hb1 | hb1
  · rw [hb1, Int.tdiv_one]
    omega
  rcases eq_or_ne b (-1) with hbm1 | hbm1
  · have h1 : Int.tdiv a (-1) = -a := by
      rw [Int.tdiv_neg, Int.tdiv_one]
    rw [hbm1, h1]
    omega
  · have h2 : 2 ≤ b.natAbs := by omega
    have h1 : (Int.tdiv a b).natAbs = a.natAbs / b.natAbs := Int.natAbs_tdiv a b
    have h3 : a.natAbs / b.natAbs ≤ a.natAbs / 2 := Nat.div_le_div_left h2 (by omega)
    have h4 : (Int.tdiv a b).natAbs ≤ a.natAbs / 2 := by
      rw [h1]
      exact h3
    omega

/-- Semantic characterisation of `SafeAdd` on well-formed operands: the result
depends only on where the exact sum falls relative to the range. -/
theorem SafeAdd_char (tmin tmax : Int) (a b : SnugInt)
    (ha : SnugInt.WF tmin tmax a) (hb : SnugInt.WF tmin tmax b) :
    SnugInt.SafeAdd tmin tmax a b =
      (if tmax < a.value + b.value then SnugResult.exc SnugExc.AdditionOverflow
       else if a.value + b.value < tmin then SnugResult.exc SnugExc.AdditionUnderflow
       else SnugResult.ok ⟨a.value + b.value, tmax, tmin⟩) := by
  obtain ⟨ha1, ha2, ha3, ha4, ha5⟩ := ha
  obtain ⟨hb1, hb2, hb3, hb4, hb5⟩ := hb
  unfold SnugInt.SafeAdd SnugInt.ofItem
  rw [ha1, ha2]
  split_ifs <;> first | rfl | (exfalso; omega)

/-- Semantic characterisation of `SafeMult` on well-formed operands over a
signed range: the result depends only on where the exact product falls
relative to the range. -/
theorem SafeMult_char (tmin tmax : Int) (a b : SnugInt)
    (hneg : tmin < 0) (hpos : 0 < tmax)
    (ha : SnugInt.WF tmin tmax a) (hb : SnugInt.WF tmin tmax b) :
    SnugInt.SafeMult tmin tmax a b =
      (if tmax < a.value * b.value then SnugResult.exc SnugExc.MultiplicationOverflow
       else if a.value * b.value < tmin then SnugResult.exc SnugExc.MultiplicationUnderflow
       else SnugResult.ok ⟨a.value * b.value, tmax, tmin⟩) := by
  obtain ⟨ha1, ha2, ha3, ha4, ha5⟩ := ha
  obtain ⟨hb1, hb2, hb3, hb4, hb5⟩ := hb
  unfold SnugInt.SafeMult SnugInt.ofItem
  rw [ha1, ha2]
  by_cases hA : a.value > 0
  · rw [if_pos hA]
    by_cases hB : b.value > 0
    · rw [if_pos hB]
      have hiff : Int.tdiv tmax b.value < a.value ↔ tmax < a.value * b.value :=
        tdiv_lt_iff_of_pos hB (le_of_lt hpos)
      have hsign : 0 < a.value * b.value := mul_pos hA hB
      simp only [gt_iff_lt, hiff]
      split_ifs <;> first | rfl | (exfalso; omega)
    · rw [if_neg hB]
      have hiff : b.value < Int.tdiv tmin a.value ↔ a.value * b.value < tmin := by
        rw [lt_tdiv_iff_of_nonpos hA (le_of_lt hneg), mul_comm]
      have hsign : a.value * b.value ≤ 0 := by nlinarith
      simp only [gt_iff_lt, hiff]
      split_ifs <;> first | rfl | (exfalso; omega)
  · rw [if_neg hA]
    by_cases hB : b.value > 0
    · rw [if_pos hB]
      have hiff : a.value < Int.tdiv tmin b.value ↔ a.value * b.value < tmin :=
        lt_tdiv_iff_of_nonpos hB (le_of_lt hneg)
      have hsign : a.value * b.value ≤ 0 := by nlinarith
      simp only [gt_iff_lt, hiff]
      split_ifs <;> first | rfl | (exfalso; omega)
    · rw [if_neg hB]
      by_cases hA0 : a.value = 0
      · rw [if_neg (show ¬(a.value ≠ 0 ∧ b.value < Int.tdiv tmax a.value) from
          fun h => h.1 hA0)]
        have hz : a.value * b.value = 0 := by rw [hA0, zero_mul]
        split_ifs <;> first | rfl | (exfalso; omega)
      · have hAneg : a.value < 0 := by omega
        have hiff : b.value < Int.tdiv tmax a.value ↔ tmax < a.value * b.value :=
          lt_tdiv_iff_of_neg hAneg (le_of_lt hpos)
        have hsign : 0 ≤ a.value * b.value := by nlinarith
        simp only [gt_iff_lt, hiff, ne_eq, hA0, not_false_eq_true, true_and]
        split_ifs <;> first | rfl | (exfalso; omega)

/-- Claim C1: for every signed underlying type (`tmin < 0 < tmax`) and all
in-range operands `a`, `b`: if the exact sum `a.value + b.value` lies within
`[tmin, tmax]`, `SafeAdd` succeeds and its stored value equals the exact sum;
if the sum exceeds `tmax` it fails with `AdditionOverflow`; if it falls below
`tmin` it fails with `AdditionUnderflow`. -/
theorem C1_SafeAdd_exact (tmin tmax : Int) (a b : SnugInt)
    (hneg : tmin < 0) (hpos : 0 < tmax)
    (ha : SnugInt.WF tmin tmax a) (hb : SnugInt.WF tmin tmax b) :
    (tmin ≤ a.value + b.value ∧ a.value + b.value ≤ tmax →
      SnugInt.SafeAdd tmin tmax a b = SnugResult.ok ⟨a.value + b.value, tmax, tmin⟩) ∧
    (tmax < a.value + b.value →
      SnugInt.SafeAdd tmin tmax a b = SnugResult.exc SnugExc.AdditionOverflow) ∧
    (a.value + b.value < tmin →
      SnugInt.SafeAdd tmin tmax a b = SnugResult.exc SnugExc.AdditionUnderflow) := by
  have h := SafeAdd_char tmin tmax a b ha hb
  refine ⟨?_, ?_, ?_⟩ <;> intro hs <;> rw [h] <;> split_ifs <;>
    first | rfl | (exfalso; omega)

/-- Witness for C1 at the 8-bit signed range: 120 + 10 = 130 > 127 fails with
`AdditionOverflow`. -/
theorem C1_witness :
    SnugInt.SafeAdd (-128) 127 ⟨120, 127, -128⟩ ⟨10, 127, -128⟩ =
      SnugResult.exc SnugExc.AdditionOverflow :=
  (C1_SafeAdd_exact (-128) 127 ⟨120, 127, -128⟩ ⟨10, 127, -128⟩ (by decide) (by decide)
    (by decide) (by decide)).2.1 (by decide)

/-- Claim C2 (code bug): `SafeDiv` contains no division-by-zero check at all.
For every dividend, dividing by a zero-valued wrapper reaches the raw C++
division, which is process-crashing undefined behaviour, instead of failing
with a distinct `DivisionByZero` error; the source declares no such exception
object in its error taxonomy. -/
theorem C2_SafeDiv_zero_unchecked (left : SnugInt) :
    SnugInt.SafeDiv (-128) 127 left ⟨0, 127, -128⟩ = SnugResult.crash := rfl

/-- Claim C3 (code bug): over an unsigned 32-bit type,
`SafeInteger(1u) - SafeInteger(10u)` does not fail with
`SubtractionUnderflow`: both sign guards of `SafeSub` are always false for
unsigned operands, the machine subtraction wraps to 4294967287, that value
passes the range check of the converting constructor, and the operation
succeeds with the wrapped-around result — contradicting the usage example in
src/SnugInt.h lines 66-77, which presents exactly this computation as one
that throws. -/
theorem C3_unsigned_sub_wraps :
    SnugInt.USafeSub 4294967295 ⟨1, 4294967295, 0⟩ ⟨10, 4294967295, 0⟩ =
      SnugResult.ok ⟨4294967287, 4294967295, 0⟩ := by decide

/-- Claim C4: for all in-range signed operands `SafeMult` fails exactly per
the sign-quadrant table — `MultiplicationOverflow` for (+,+) when
`left.value > left.max / right.value`, `MultiplicationUnderflow` for (+,-)
when `right.value < left.min / left.value`, `MultiplicationUnderflow` for
(-,+) when `left.value < left.min / right.value`, `MultiplicationOverflow`
for (-,-) when `right.value < left.max / left.value` (the guard
`left.value != 0` holds automatically there) — and otherwise succeeds with
stored value `left.value * right.value`; a zero operand always yields a zero
product with no failure. -/
theorem C4_SafeMult_quadrants (tmin tmax : Int) (a b : SnugInt)
    (hneg : tmin < 0) (hpos : 0 < tmax)
    (ha : SnugInt.WF tmin tmax a) (hb : SnugInt.WF tmin tmax b) :
    (0 < a.value → 0 < b.value →
      (Int.tdiv tmax b.value < a.value →
        SnugInt.SafeMult tmin tmax a b = SnugResult.exc SnugExc.MultiplicationOverflow) ∧
      (a.value ≤ Int.tdiv tmax b.value →
        SnugInt.SafeMult tmin tmax a b = SnugResult.ok ⟨a.value * b.value, tmax, tmin⟩)) ∧
    (0 < a.value → b.value < 0 →
      (b.value < Int.tdiv tmin a.value →
        SnugInt.SafeMult tmin tmax a b = SnugResult.exc SnugExc.MultiplicationUnderflow) ∧
      (Int.tdiv tmin a.value ≤ b.value →
        SnugInt.SafeMult tmin tmax a b = SnugResult.ok ⟨a.value * b.value, tmax, tmin⟩)) ∧
    (a.value < 0 → 0 < b.value →
      (a.value < Int.tdiv tmin b.value →
        SnugInt.SafeMult tmin tmax a b = SnugResult.exc SnugExc.MultiplicationUnderflow) ∧
      (Int.tdiv tmin b.value ≤ a.value →
        SnugInt.SafeMult tmin tmax a b = SnugResult.ok ⟨a.value * b.value, tmax, tmin⟩)) ∧
    (a.value < 0 → b.value < 0 →
      (b.value < Int.tdiv tmax a.value →
        SnugInt.SafeMult tmin tmax a b = SnugResult.exc SnugExc.MultiplicationOverflow) ∧
      (Int.tdiv tmax a.value ≤ b.value →
        SnugInt.SafeMult tmin tmax a b = SnugResult.ok ⟨a.value * b.value, tmax, tmin⟩)) ∧
    ((a.value = 0 ∨ b.value = 0) →
      SnugInt.SafeMult tmin tmax a b = SnugResult.ok ⟨a.value * b.value, tmax, tmin⟩ ∧
      a.value * b.value = 0) := by
  have hch := SafeMult_char tmin tmax a b hneg hpos ha hb
  refine ⟨?_, ?_, ?_, ?_, ?_⟩
  · intro hA hB
    have hiff : Int.tdiv tmax b.value < a.value ↔ tmax < a.value * b.value :=
      tdiv_lt_iff_of_pos hB (le_of_lt hpos)
    have hsign : 0 < a.value * b.value := mul_pos hA hB
    constructor
    · intro hgt
      rw [hch, if_pos (hiff.mp hgt)]
    · intro hle
      rw [hch, if_neg (by rw [← hiff]; omega), if_neg (by omega)]
  · intro hA hB
    have hiff : b.value < Int.tdiv tmin a.value ↔ a.value * b.value < tmin := by
      rw [lt_tdiv_iff_of_nonpos hA (le_of_lt hneg), mul_comm]
    have hsign : a.value * b.value ≤ 0 := by nlinarith
    constructor
    · intro hgt
      rw [hch, if_neg (by omega), if_pos (hiff.mp hgt)]
    · intro hle
      rw [hch, if_neg (by omega), if_neg (by rw [← hiff]; omega)]
  · intro hA hB
    have hiff : a.value < Int.tdiv tmin b.value ↔ a.value * b.value < tmin :=
      lt_tdiv_iff_of_nonpos hB (le_of_lt hneg)
    have hsign : a.value * b.value ≤ 0 := by nlinarith
    constructor
    · intro hgt
      rw [hch, if_neg (by omega), if_pos (hiff.mp hgt)]
    · intro hle
      rw [hch, if_neg (by omega), if_neg (by rw [← hiff]; omega)]
  · intro hA hB
    have hiff : b.value < Int.tdiv tmax a.value ↔ tmax < a.value * b.value :=
      lt_tdiv_iff_of_neg hA (le_of_lt hpos)
    have hsign : 0 ≤ a.value * b.value := by nlinarith
    constructor
    · intro hgt
      rw [hch, if_pos (hiff.mp hgt)]
    · intro hle
      rw [hch, if_neg (by rw [← hiff]; omega), if_neg (by omega)]
  · intro hz
    have h0 : a.value * b.value = 0 := by
      rcases hz with h | h
      · rw [h, zero_mul]
      · rw [h, mul_zero]
    refine ⟨?_, h0⟩
    rw [hch, if_neg (by omega), if_neg (by omega)]

/-- Witness for C4 at the 8-bit signed range: 100 * 2 = 200 > 127 fails with
`MultiplicationOverflow`. -/
theorem C4_witness :
    SnugInt.SafeMult (-128) 127 ⟨100, 127, -128⟩ ⟨2, 127, -128⟩ =
      SnugResult.exc SnugExc.MultiplicationOverflow :=
  ((C4_SafeMult_quadrants (-128) 127 ⟨100, 127, -128⟩ ⟨2, 127, -128⟩ (by decide) (by decide)
    (by decide) (by decide)).1 (by decide) (by decide)).1 (by decide)

/-- Counterexample to claim C5 as stated: over the 8-bit signed range, with
`left.value = 0` (a zero operand, inside the scope of the claim) and
`right.value = -128 = min`, the difference `0 - (-128) = 128` exceeds
`max = 127`, and `SafeSub` fails with `SizeMismatch` raised by the result
construction instead of succeeding. -/
theorem C5_counterexample :
    SnugInt.SafeSub (-128) 127 ⟨0, 127, -128⟩ ⟨-128, 127, -128⟩ =
      SnugResult.exc SnugExc.SizeMismatch := by decide

/-- Claim C5 as amended: for in-range operands over a two-complement signed
range (`tmin = -(tmax + 1)`) with the same sign or with either operand zero,
`SafeSub` performs no range check of its own — it is exactly the converting
constructor applied to the raw difference — and, except in the single case
`left.value = 0` with `right.value = tmin` (where the difference `tmax + 1`
is out of range and the construction fails with `SizeMismatch`), it succeeds
returning the exact difference. -/
theorem C5_SafeSub_same_sign_amended (tmax : Int) (hpos : 0 < tmax) (a b : SnugInt)
    (ha : SnugInt.WF (-(tmax + 1)) tmax a) (hb : SnugInt.WF (-(tmax + 1)) tmax b)
    (hsgn : (0 < a.value ∧ 0 < b.value) ∨ (a.value < 0 ∧ b.value < 0) ∨
      a.value = 0 ∨ b.value = 0) :
    SnugInt.SafeSub (-(tmax + 1)) tmax a b =
      SnugInt.ofItem (-(tmax + 1)) tmax (a.value - b.value) ∧
    (¬(a.value = 0 ∧ b.value = -(tmax + 1)) →
      SnugInt.SafeSub (-(tmax + 1)) tmax a b =
        SnugResult.ok ⟨a.value - b.value, tmax, -(tmax + 1)⟩) := by
  obtain ⟨ha1, ha2, ha3, ha4, ha5⟩ := ha
  obtain ⟨hb1, hb2, hb3, hb4, hb5⟩ := hb
  have hskip : SnugInt.SafeSub (-(tmax + 1)) tmax a b =
      SnugInt.ofItem (-(tmax + 1)) tmax (a.value - b.value) := by
    unfold SnugInt.SafeSub
    rw [if_neg (by omega), if_neg (by omega)]
  refine ⟨hskip, fun hexc => ?_⟩
  rw [hskip]
  unfold SnugInt.ofItem
  rw [if_neg (by omega), if_neg (by omega)]

/-- Witness for the amended C5 at the 8-bit signed range: both operands
negative, (-120) - (-10) succeeds with the exact difference -110. -/
theorem C5_witness :
    SnugInt.SafeSub (-128) 127 ⟨-120, 127, -128⟩ ⟨-10, 127, -128⟩ =
      SnugResult.ok ⟨-110, 127, -128⟩ :=
  (C5_SafeSub_same_sign_amended 127 (by decide) ⟨-120, 127, -128⟩ ⟨-10, 127, -128⟩
    (by decide) (by decide) (by decide)).2 (by decide)

/-- Counterexample to claim C6 as stated: over the 8-bit signed range, the
in-range operands `left.value = -128 = min` and `right.value = -1 ≠ 0`
produce the truncated quotient `128 > max`, and `SafeDiv` fails with
`SizeMismatch` raised by the result construction instead of succeeding. -/
theorem C6_counterexample :
    SnugInt.SafeDiv (-128) 127 ⟨-128, 127, -128⟩ ⟨-1, 127, -128⟩ =
      SnugResult.exc SnugExc.SizeMismatch := by decide

/-- Claim C6 as amended: for in-range operands over a two-complement signed
range (`tmin = -(tmax + 1)`) with `right.value ≠ 0`, and excluding the single
case `left.value = tmin` with `right.value = -1` (where the quotient
`tmax + 1` is out of range and the construction fails with `SizeMismatch`),
`SafeDiv` succeeds with stored value the truncated-toward-zero quotient. -/
theorem C6_SafeDiv_amended (tmax : Int) (hpos : 0 < tmax) (a b : SnugInt)
    (ha : SnugInt.WF (-(tmax + 1)) tmax a) (hb : SnugInt.WF (-(tmax + 1)) tmax b)
    (hz : b.value ≠ 0) (hexc : ¬(a.value = -(tmax + 1) ∧ b.value = -1)) :
    SnugInt.SafeDiv (-(tmax + 1)) tmax a b =
      SnugResult.ok ⟨Int.tdiv a.value b.value, tmax, -(tmax + 1)⟩ := by
  obtain ⟨ha1, ha2, ha3, ha4, ha5⟩ := ha
  have hr := tdiv_bounds hpos ha3 ha4 hz hexc
  unfold SnugInt.SafeDiv SnugInt.ofItem
  rw [if_neg hz, if_neg (by omega), if_neg (by omega)]

/-- Witness for the amended C6 at the 8-bit signed range: 10 / 3 succeeds
with the truncated quotient 3. -/
theorem C6_witness :
    SnugInt.SafeDiv (-128) 127 ⟨10, 127, -128⟩ ⟨3, 127, -128⟩ =
      SnugResult.ok ⟨3, 127, -128⟩ :=
  C6_SafeDiv_amended 127 (by decide) ⟨10, 127, -128⟩ ⟨3, 127, -128⟩
    (by decide) (by decide) (by decide) (by decide)

/-- Claim C7: for every integral value `item`, converting construction over a
type with limits `tmin < tmax` fails with `SizeMismatch` exactly when `item`
lies outside `[tmin, tmax]`; when `item` lies inside the range, construction
succeeds and round-trips, storing exactly `item`. -/
theorem C7_ctor_range (tmin tmax item : Int) (h : tmin < tmax) :
    (SnugInt.ofItem tmin tmax item = SnugResult.exc SnugExc.SizeMismatch ↔
      tmax < item ∨ item < tmin) ∧
    (tmin ≤ item → item ≤ tmax →
      SnugInt.ofItem tmin tmax item = SnugResult.ok ⟨item, tmax, tmin⟩) := by
  unfold SnugInt.ofItem
  rw [if_neg (by omega)]
  split_ifs with h2
  · exact ⟨iff_of_true rfl (by omega), fun h3 h4 => absurd h2 (by omega)⟩
  · exact ⟨iff_of_false (by simp) (by omega), fun h3 h4 => rfl⟩

/-- Witness for C7 at the 8-bit signed range: constructing from 300 fails
with `SizeMismatch`. -/
theorem C7_witness :
    SnugInt.ofItem (-128) 127 300 = SnugResult.exc SnugExc.SizeMismatch :=
  (C7_ctor_range (-128) 127 300 (by decide)).1.mpr (by decide)

/-- Claim C8: for every live wrapper instance, prefix and postfix increment
fail with `AdditionOverflow` exactly when `value = max`, and prefix and
postfix decrement fail with `SubtractionUnderflow` exactly when
`value = min`; in every such failure the stored value is left unchanged, on
success the value changes by exactly one, and the postfix forms return a
snapshot of the pre-mutation value. -/
theorem C8_inc_dec_boundary (tmin tmax : Int) (s : SnugInt)
    (h : SnugInt.WF tmin tmax s) :
    ((SnugInt.incPre s).thrown = some SnugExc.AdditionOverflow ↔ s.value = tmax) ∧
    (s.value = tmax → SnugInt.incPre s = ⟨s, some SnugExc.AdditionOverflow⟩) ∧
    (s.value ≠ tmax → SnugInt.incPre s = ⟨⟨s.value + 1, tmax, tmin⟩, none⟩) ∧
    (s.value = tmax → SnugInt.incPost s = ⟨s, none, some SnugExc.AdditionOverflow⟩) ∧
    (s.value ≠ tmax →
      SnugInt.incPost s = ⟨⟨s.value + 1, tmax, tmin⟩, some ⟨s.value, tmax, tmin⟩, none⟩) ∧
    ((SnugInt.decPre s).thrown = some SnugExc.SubtractionUnderflow ↔ s.value = tmin) ∧
    (s.value = tmin → SnugInt.decPre s = ⟨s, some SnugExc.SubtractionUnderflow⟩) ∧
    (s.value ≠ tmin → SnugInt.decPre s = ⟨⟨s.value - 1, tmax, tmin⟩, none⟩) ∧
    (s.value = tmin → SnugInt.decPost s = ⟨s, none, some SnugExc.SubtractionUnderflow⟩) ∧
    (s.value ≠ tmin →
      SnugInt.decPost s = ⟨⟨s.value - 1, tmax, tmin⟩, some ⟨s.value, tmax, tmin⟩, none⟩) := by
  obtain ⟨h1, h2, h3, h4, h5⟩ := h
  unfold SnugInt.incPre SnugInt.incPost SnugInt.decPre SnugInt.decPost
  rw [h1, h2]
  refine ⟨?_, ?_, ?_, ?_, ?_, ?_, ?_, ?_, ?_, ?_⟩
  · by_cases h6 : s.value = tmax
    · rw [if_pos h6]
      simp [h6]
    · rw [if_neg h6]
      simp [h6]
  · intro h6
    rw [if_pos h6]
  · intro h6
    rw [if_neg h6]
  · intro h6
    rw [if_pos h6]
  · intro h6
    rw [if_neg h6, if_neg (by omega)]
  · by_cases h6 : s.value = tmin
    · rw [if_pos h6]
      simp [h6]
    · rw [if_neg h6]
      simp [h6]
  · intro h6
    rw [if_pos h6]
  · intro h6
    rw [if_neg h6]
  · intro h6
    rw [if_pos h6]
  · intro h6
    rw [if_neg h6, if_neg (by omega)]

/-- Witness for C8 at the 8-bit signed range: prefix increment at 127 = max
fails with `AdditionOverflow` and leaves the state unchanged. -/
theorem C8_witness :
    SnugInt.incPre ⟨127, 127, -128⟩ = ⟨⟨127, 127, -128⟩, some SnugExc.AdditionOverflow⟩ :=
  (C8_inc_dec_boundary (-128) 127 ⟨127, 127, -128⟩ (by decide)).2.1 (by decide)

/-- Claim C9: every operation preserves the state invariant
`min ≤ value ≤ max` (with `min < max`): after every successful construction,
assignment — including the unchecked raw-`Type` assignment, whose argument is
a value of the underlying type and hence in range by typing — arithmetic,
increment, and decrement, the resulting instance is well-formed. -/
theorem C9_invariant_preservation (tmin tmax : Int)
    (hlt : tmin < tmax) (hz1 : tmin ≤ 0) (hz2 : 0 ≤ tmax) :
    (∀ s, SnugInt.defaultCtor tmin tmax = SnugResult.ok s → SnugInt.WF tmin tmax s) ∧
    (∀ item s, SnugInt.ofItem tmin tmax item = SnugResult.ok s →
      SnugInt.WF tmin tmax s) ∧
    (∀ t s, SnugInt.copyCtor t = SnugResult.ok s → SnugInt.WF tmin tmax t →
      SnugInt.WF tmin tmax s) ∧
    (∀ s t, SnugInt.WF tmin tmax t → SnugInt.WF tmin tmax (SnugInt.assignSnug s t)) ∧
    (∀ s x, SnugInt.WF tmin tmax s → tmin ≤ x → x ≤ tmax →
      SnugInt.WF tmin tmax (SnugInt.assignRaw s x)) ∧
    (∀ a b s, SnugInt.SafeAdd tmin tmax a b = SnugResult.ok s → SnugInt.WF tmin tmax s) ∧
    (∀ a b s, SnugInt.SafeSub tmin tmax a b = SnugResult.ok s → SnugInt.WF tmin tmax s) ∧
    (∀ a b s, SnugInt.SafeMult tmin tmax a b = SnugResult.ok s → SnugInt.WF tmin tmax s) ∧
    (∀ a b s, SnugInt.SafeDiv tmin tmax a b = SnugResult.ok s → SnugInt.WF tmin tmax s) ∧
    (∀ s, SnugInt.WF tmin tmax s → (SnugInt.incPre s).thrown = none →
      SnugInt.WF tmin tmax (SnugInt.incPre s).state) ∧
    (∀ s, SnugInt.WF tmin tmax s → (SnugInt.incPost s).thrown = none →
      SnugInt.WF tmin tmax (SnugInt.incPost s).state) ∧
    (∀ s, SnugInt.WF tmin tmax s → (SnugInt.decPre s).thrown = none →
      SnugInt.WF tmin tmax (SnugInt.decPre s).state) ∧
    (∀ s, SnugInt.WF tmin tmax s → (SnugInt.decPost s).thrown = none →
      SnugInt.WF tmin tmax (SnugInt.decPost s).state) := by
  refine ⟨?_, ?_, ?_, ?_, ?_, ?_, ?_, ?_, ?_, ?_, ?_, ?_, ?_⟩
  · intro s h
    unfold SnugInt.defaultCtor at h
    rw [if_neg (by omega)] at h
    injection h with h3
    subst h3
    exact ⟨rfl, rfl, hz1, hz2, hlt⟩
  · intro item s h
    exact ofItem_ok_WF hlt h
  · intro t s h ht
    obtain ⟨ht1, ht2, ht3, ht4, ht5⟩ := ht
    unfold SnugInt.copyCtor at h
    rw [if_neg (by omega)] at h
    injection h with h3
    subst h3
    exact ⟨ht1, ht2, ht3, ht4, ht5⟩
  · intro s t ht
    obtain ⟨ht1, ht2, ht3, ht4, ht5⟩ := ht
    exact ⟨ht1, ht2, ht3, ht4, ht5⟩
  · intro s x hs hx1 hx2
    obtain ⟨hs1, hs2, hs3, hs4, hs5⟩ := hs
    exact ⟨hs1, hs2, hx1, hx2, hlt⟩
  · intro a b s h
    unfold SnugInt.SafeAdd at h
    split_ifs at h
    all_goals first | (cases h) | (exact ofItem_ok_WF hlt h)
  · intro a b s h
    unfold SnugInt.SafeSub at h
    split_ifs at h
    all_goals first | (cases h) | (exact ofItem_ok_WF hlt h)
  · intro a b s h
    unfold SnugInt.SafeMult at h
    split_ifs at h
    all_goals first | (cases h) | (exact ofItem_ok_WF hlt h)
  · intro a b s h
    unfold SnugInt.SafeDiv at h
    split_ifs at h
    all_goals first | (cases h) | (exact ofItem_ok_WF hlt h)
  · intro s hs hth
    obtain ⟨h1, h2, h3, h4, h5⟩ := hs
    unfold SnugInt.incPre at hth ⊢
    split_ifs at hth ⊢ with h6
    have hv1 : tmin ≤ s.value + 1 := by omega
    have hv2 : s.value + 1 ≤ tmax := by omega
    exact ⟨h1, h2, hv1, hv2, h5⟩
  · intro s hs hth
    obtain ⟨h1, h2, h3, h4, h5⟩ := hs
    unfold SnugInt.incPost at hth ⊢
    split_ifs at hth ⊢ with h6 h7
    have hv1 : tmin ≤ s.value + 1 := by omega
    have hv2 : s.value + 1 ≤ tmax := by omega
    exact ⟨h1, h2, hv1, hv2, h5⟩
  · intro s hs hth
    obtain ⟨h1, h2, h3, h4, h5⟩ := hs
    unfold SnugInt.decPre at hth ⊢
    split_ifs at hth ⊢ with h6
    have hv1 : tmin ≤ s.value - 1 := by omega
    have hv2 : s.value - 1 ≤ tmax := by omega
    exact ⟨h1, h2, hv1, hv2, h5⟩
  · intro s hs hth
    obtain ⟨h1, h2, h3, h4, h5⟩ := hs
    unfold SnugInt.decPost at hth ⊢
    split_ifs at hth ⊢ with h6 h7
    have hv1 : tmin ≤ s.value - 1 := by omega
    have hv2 : s.value - 1 ≤ tmax := by omega
    exact ⟨h1, h2, hv1, hv2, h5⟩

/-- Witness for C9 at the 8-bit signed range: the raw-`Type` assignment of 5
into a live instance yields a well-formed instance. -/
theorem C9_witness :
    SnugInt.WF (-128) 127 (SnugInt.assignRaw ⟨0, 127, -128⟩ 5) :=
  (C9_invariant_preservation (-128) 127 (by decide) (by decide)
    (by decide)).2.2.2.2.1 ⟨0, 127, -128⟩ 5 (by decide) (by decide) (by decide)

/-- Claim C10: `SafeAdd` and `SafeMult` are commutative at the interface over
a signed range: swapping the operands yields the identical result — both
succeed with the same stored value or both fail with the same exception kind
— even though each precondition check is written asymmetrically in terms of
the bounds of the left operand. -/
theorem C10_add_mult_commutative (tmin tmax : Int) (a b : SnugInt)
    (hneg : tmin < 0) (hpos : 0 < tmax)
    (ha : SnugInt.WF tmin tmax a) (hb : SnugInt.WF tmin tmax b) :
    SnugInt.SafeAdd tmin tmax a b = SnugInt.SafeAdd tmin tmax b a ∧
    SnugInt.SafeMult tmin tmax a b = SnugInt.SafeMult tmin tmax b a := by
  constructor
  · rw [SafeAdd_char tmin tmax a b ha hb, SafeAdd_char tmin tmax b a hb ha,
      add_comm b.value a.value]
  · rw [SafeMult_char tmin tmax a b hneg hpos ha hb,
      SafeMult_char tmin tmax b a hneg hpos hb ha, mul_comm b.value a.value]

/-- Witness for C10 at the 8-bit signed range: 100 + (-30) and (-30) + 100
produce identical results. -/
theorem C10_witness :
    SnugInt.SafeAdd (-128) 127 ⟨100, 127, -128⟩ ⟨-30, 127, -128⟩ =
      SnugInt.SafeAdd (-128) 127 ⟨-30, 127, -128⟩ ⟨100, 127, -128⟩ :=
  (C10_add_mult_commutative (-128) 127 ⟨100, 127, -128⟩ ⟨-30, 127, -128⟩
    (by decide) (by decide) (by decide) (by decide)).1
